import Mathlib

/-!
Shallow embedding of ssterm (ssterm.py, a simple serial-port terminal).

Python 2 byte strings are modelled as `List Nat`, one natural number per
byte (Python 2 `str` is a byte string; `ord`/`chr` are the identity on the
byte value).  The module-level mutable state of the Python code
(`txhex_state`, `rxnl_state`, `stdout_cursor_x`, `stdout_split_bytes`) is
threaded explicitly: each transformer takes its piece of state and returns
the new one together with its output.  File-descriptor writes are modelled
by returning the written bytes.
-/

/-- Python 2 byte string: a list of byte values. -/
abbrev Str := List Nat

/-- Bytes of a Lean string literal, used to transcribe Python string
constants (all constants involved are ASCII / Latin-1). -/
def strBytes (s : String) : Str := s.toList.map Char.toNat

/-- `Console_Newline = os.linesep`: a single LF byte on the POSIX platforms
ssterm targets (the code itself notes it assumes a single-character
platform newline). -/
def Console_Newline : Nat := 10

/-- `Quit_Escape_Character = 0x1D` (Ctrl-]). -/
def Quit_Escape_Character : Nat := 0x1D

/-- `Hexadecimal_Columns = 16`. -/
def Hexadecimal_Columns : Nat := 16

/-- `Color_Codes`: the fixed palette of 7 ANSI color escape strings. -/
def Color_Codes : List Str :=
  [ strBytes "\x1b[1;30;41m", strBytes "\x1b[1;30;42m", strBytes "\x1b[1;30;43m",
    strBytes "\x1b[1;37;44m", strBytes "\x1b[1;37;45m", strBytes "\x1b[1;30;46m",
    strBytes "\x1b[1;30;47m" ]

/-- `Color_Code_Reset = "\x1b[0m"`. -/
def Color_Code_Reset : Str := strBytes "\x1b[0m"

/-! ### Receive newline substitution (`format_rx_nlsub`) -/

/-- The four non-`raw` entries of `RX_Newline_Sub`:
`'cr' ↦ "\r"`, `'lf' ↦ "\n"`, `'crlf' ↦ "\r\n"`, `'crorlf' ↦ "\r|\n"`. -/
inductive RxPattern
  | cr
  | lf
  | crlf
  | crorlf
deriving DecidableEq

/-- The bytes of the Python match string for each pattern
(`"\r|\n"` is CR, `'|'`, LF). -/
def RxPattern.str : RxPattern → Str
  | .cr => [13]
  | .lf => [10]
  | .crlf => [13, 10]
  | .crorlf => [13, 124, 10]

/-- `match[0][0]`: the first byte of the match string. -/
def RxPattern.matchFirst : RxPattern → Nat
  | .cr => 13
  | .lf => 10
  | .crlf => 13
  | .crorlf => 13

/-- `re.sub("\r\n", "\n", data)`: leftmost, non-overlapping replacement of
CRLF by the console newline. -/
def subCRLF : Str → Str
  | [] => []
  | [c] => [c]
  | c :: d :: rest =>
    if c = 13 ∧ d = 10 then 10 :: subCRLF rest else c :: subCRLF (d :: rest)

/-- `re.sub(match, Console_Newline, data)` for each of the four concrete
match patterns.  `"\r"`, `"\n"` and the alternation `"\r|\n"` match single
characters, so their substitution is a per-character map; `"\r\n"` is the
two-character scan `subCRLF`. -/
def RxPattern.reSub : RxPattern → Str → Str
  | .cr, data => data.map (fun x => if x = 13 then Console_Newline else x)
  | .lf, data => data.map (fun x => if x = 10 then Console_Newline else x)
  | .crorlf, data => data.map (fun x => if x = 13 ∨ x = 10 then Console_Newline else x)
  | .crlf, data => subCRLF data

/-- `format_rx_nlsub(data, match)` with the module state `rxnl_state` made
explicit.  Returns `(output, new rxnl_state)`.  The code prepends the
carried byte, substitutes, and holds back the final byte of the
substituted buffer when it equals `match[0][0]`.  (In the program the
substituted buffer is never empty — read chunks are non-empty and the
substitutions never shrink a non-empty string to empty — so the
`data[-1]` lookup never faults; the `none` branch below is unreachable
there.) -/
def format_rx_nlsub (p : RxPattern) (rxnl_state data : Str) : Str × Str :=
  let d := p.reSub (rxnl_state ++ data)
  if d.getLast? = some p.matchFirst then (d.dropLast, [p.matchFirst]) else (d, [])

/-- Feed a sequence of chunks through `format_rx_nlsub`, concatenating the
outputs and threading the carry state. -/
def runRxChunks (p : RxPattern) (st : Str) : List Str → Str × Str
  | [] => ([], st)
  | c :: cs =>
    let r := format_rx_nlsub p st c
    let rs := runRxChunks p r.2 cs
    (r.1 ++ rs.1, rs.2)

/-! ### Transmit newline substitution and hex decoding -/

/-- `format_tx_nlsub(data, sub)`: replace every console-newline byte by the
bytes of `sub`. -/
def format_tx_nlsub (data sub : Str) : Str :=
  data.flatMap (fun x => if x = Console_Newline then sub else [x])

/-- `x in string.hexdigits`: `0`-`9`, `A`-`F`, `a`-`f`. -/
def isHexDigitByte (x : Nat) : Bool :=
  (decide (48 ≤ x) && decide (x ≤ 57)) ||
  (decide (65 ≤ x) && decide (x ≤ 70)) ||
  (decide (97 ≤ x) && decide (x ≤ 102))

/-- The value of one hex digit character (as used by `int(·, 16)`);
only applied to bytes satisfying `isHexDigitByte`. -/
def hexDigitVal (x : Nat) : Nat :=
  if 48 ≤ x ∧ x ≤ 57 then x - 48
  else if 97 ≤ x ∧ x ≤ 102 then x - 87
  else x - 55

/-- `int(s, 16)` on a two-hex-digit accumulator `s`. -/
def parse2hex (s : Str) : Nat :=
  16 * hexDigitVal (s.headD 0) + hexDigitVal (s.getLastD 0)

/-- `format_tx_hex(data)` with the module state `txhex_state` made
explicit.  Returns `(decoded bytes, new txhex_state)`.  A hex digit is
appended to the state, any other byte resets the state to empty, and when
the state reaches two digits `chr(int(state, 16))` is emitted and the
state resets. -/
def format_tx_hex (txhex_state : Str) : Str → Str × Str
  | [] => ([], txhex_state)
  | x :: rest =>
    let st1 := if isHexDigitByte x then txhex_state ++ [x] else []
    if st1.length = 2 then
      let r := format_tx_hex [] rest
      (parse2hex st1 :: r.1, r.2)
    else
      let r := format_tx_hex st1 rest
      (r.1, r.2)

/-- Feed a sequence of chunks through `format_tx_hex`, concatenating the
outputs and threading the accumulator state. -/
def runTxHexChunks (st : Str) : List Str → Str × Str
  | [] => ([], st)
  | c :: cs =>
    let r := format_tx_hex st c
    let rs := runTxHexChunks r.2 cs
    (r.1 ++ rs.1, rs.2)

/-- Modelled from the spec: the hex encoding used to state the round-trip
property — each byte rendered as two lowercase hexadecimal digits with no
separators (`hex-encode is two-lowercase-hex-digit-per-byte`). -/
def hexEncode (B : Str) : Str :=
  B.flatMap (fun b => [if b / 16 < 10 then 48 + b / 16 else 87 + b / 16,
                    if b % 16 < 10 then 48 + b % 16 else 87 + b % 16])

/-! ### Output formatters -/

/-- The color-character dictionary `Color_Chars`, as an insertion-ordered
association list from byte value to color-slot index. -/
def colorLookup (m : List (Nat × Nat)) (k : Nat) : Option Nat :=
  (m.find? (fun p => p.1 = k)).map (fun p => p.2)

/-- `Color_Codes[Color_Chars[ord(x)]] + tok + Color_Code_Reset` when `x` is
color-coded, else `tok`.  (In Python an out-of-range slot index raises
IndexError; slots beyond the palette are only reachable through the
configuration-parsing bug examined with the color-bound claim, and the
formatter claims use in-range mappings only.) -/
def colorWrap (cc : List (Nat × Nat)) (x : Nat) (tok : Str) : Str :=
  match colorLookup cc x with
  | some i => (Color_Codes.getD i []) ++ tok ++ Color_Code_Reset
  | none => tok

/-- `"%02x" % b` for a byte value (`0 ≤ b < 256`, as always holds for
Python 2 string bytes). -/
def hex2 (b : Nat) : Str :=
  [if b / 16 < 10 then 48 + b / 16 else 87 + b / 16,
   if b % 16 < 10 then 48 + b % 16 else 87 + b % 16]

/-- `format_print_raw(stdout_fd, data)`: the bytes written to stdout. -/
def format_print_raw (cc : List (Nat × Nat)) (data : Str) : Str :=
  if cc.length = 0 then data
  else data.flatMap (fun x => colorWrap cc x [x])

/-- `format_print_hexadecimal(stdout_fd, data, interpret_newlines)` with
the module state `stdout_cursor_x` made explicit.  Returns
`(bytes written to stdout, new cursor)`. -/
def format_print_hexadecimal (cc : List (Nat × Nat)) (interpNl : Bool)
    (cursor : Nat) : Str → Str × Nat
  | [] => ([], cursor)
  | x :: rest =>
    let tok := if cc.length > 0 then colorWrap cc x (hex2 x) else hex2 x
    let c1 := cursor + 1
    let sep : Str :=
      if c1 = Hexadecimal_Columns / 2 then [32, 32]
      else if c1 = Hexadecimal_Columns then [10]
      else [32]
    let c2 := if c1 = Hexadecimal_Columns then 0 else c1
    let nl : Str := if x = Console_Newline ∧ interpNl then [Console_Newline] else []
    let c3 := if x = Console_Newline ∧ interpNl then 0 else c2
    let r := format_print_hexadecimal cc interpNl c3 rest
    (tok ++ sep ++ nl ++ r.1, r.2)

/-- `byte_list[i] in string.letters+string.digits+string.punctuation+' '`:
the printable ASCII range 0x20..0x7E. -/
def isPrintableByte (x : Nat) : Bool :=
  decide (32 ≤ x) && decide (x ≤ 126)

/-- The hexadecimal half of `split_print`, with the running index `i`. -/
def split_print_hexpart (cc : List (Nat × Nat)) : Nat → Str → Str
  | _, [] => []
  | i, x :: rest =>
    (if cc.length > 0 then colorWrap cc x (hex2 x) else hex2 x)
    ++ (if i + 1 = Hexadecimal_Columns / 2 then [32, 32] else [32])
    ++ split_print_hexpart cc (i + 1) rest

/-- The blank-space padding `split_print` emits after a short row. -/
def split_print_padding (n : Nat) : Str :=
  if n < Hexadecimal_Columns / 2 then
    32 :: List.replicate (3 * (Hexadecimal_Columns - n)) 32
  else if n < Hexadecimal_Columns then
    List.replicate (3 * (Hexadecimal_Columns - n)) 32
  else []

/-- The ASCII half of `split_print`: printable bytes as themselves, others
as a dot, each optionally color-wrapped. -/
def split_print_asciipart (cc : List (Nat × Nat)) : Str → Str
  | [] => []
  | x :: rest =>
    (if cc.length > 0 then colorWrap cc x (if isPrintableByte x then [x] else [46])
     else if isPrintableByte x then [x] else [46])
    ++ split_print_asciipart cc rest

/-- `split_print(byte_list)`: hex half, padding, `" |"`, ASCII half, `"|"`. -/
def split_print (cc : List (Nat × Nat)) (bl : Str) : Str :=
  split_print_hexpart cc 0 bl ++ split_print_padding bl.length
    ++ [32, 124] ++ split_print_asciipart cc bl ++ [124]

/-- The per-byte loop of `format_print_split`: append to the window, and
print a full row (followed by the console newline) whenever the window
reaches `Hexadecimal_Columns`.  Returns `(output, new window)`. -/
def fps_loop (cc : List (Nat × Nat)) : Str → Str → Str × Str
  | w, [] => ([], w)
  | w, x :: rest =>
    let w1 := w ++ [x]
    if w1.length = Hexadecimal_Columns then
      let r := fps_loop cc [] rest
      (split_print cc w1 ++ [Console_Newline] ++ r.1, r.2)
    else
      let r := fps_loop cc w1 rest
      (r.1, r.2)

/-- `format_print_split(stdout_fd, data, partial_print)` with the module
state `stdout_split_bytes` made explicit; `livePrint` is the keyword
argument named `partial_print` in the source.  Returns
`(bytes written to stdout, new window)`. -/
def format_print_split (cc : List (Nat × Nat)) (livePrint : Bool)
    (window data : Str) : Str × Str :=
  let pre : Str := if livePrint ∧ window.length > 0 then [13] else []
  let r := fps_loop cc window data
  let post : Str := if livePrint ∧ r.2.length > 0 then split_print cc r.2 else []
  (pre ++ r.1 ++ post, r.2)

/-! ### The read/write loop (`read_write_loop`), one iteration -/

/-- `Format_Options['output_mode']`. -/
inductive OutputMode
  | raw
  | split
  | splitfull
  | hex
  | hexnl
deriving DecidableEq

/-- The formatting options `read_write_loop` reads at entry: the looked-up
transmit substitution (`None` for `'raw'`), the input mode, the looked-up
receive pattern (`None` for `'raw'`), the output mode, and `Color_Chars`. -/
structure Config where
  txnlSub : Option Str
  inputModeHex : Bool
  rxnlPat : Option RxPattern
  outputMode : OutputMode
  colorChars : List (Nat × Nat)

/-- The module-level mutable state touched by one loop iteration. -/
structure LoopState where
  txhex : Str
  rxnl : Str
  cursor : Nat
  window : Str
deriving DecidableEq

/-- How one `while` iteration ends: fall through to the next iteration,
`break` (escape character seen), or a raised fatal exception. -/
inductive IterResult
  | cont (st : LoopState)
  | brk (st : LoopState)
  | fatal (msg : String) (st : LoopState)
deriving DecidableEq

/-- Observable I/O effects of one iteration: the payload of each
`fd_write(serial_fd, ·)` call, the bytes the OS actually accepted on the
serial descriptor, and the bytes written to stdout. -/
structure IterEffects where
  serialWriteCalls : List Str
  serialSent : Str
  stdoutBytes : Str
deriving DecidableEq

/-- No I/O performed. -/
def noEffects : IterEffects := ⟨[], [], []⟩

/-- The environment's behaviour during one iteration: which descriptors
`select` reported ready, what each `fd_read` returned (`error` models the
call raising), and the result of the single `os.write` on the serial
descriptor (the count of bytes it accepted, or a raised error).  Writes to
stdout are modelled as succeeding. -/
structure IterInput where
  stdinReady : Bool
  serialReady : Bool
  stdinRead : Except String Str
  serialRead : Except String Str
  serialWriteRes : Except String Nat

/-- Dispatch on `Format_Options['output_mode']`, updating the formatter's
piece of state. -/
def format_print (cfg : Config) (st : LoopState) (data : Str) : Str × LoopState :=
  match cfg.outputMode with
  | .raw => (format_print_raw cfg.colorChars data, st)
  | .hex =>
    let r := format_print_hexadecimal cfg.colorChars false st.cursor data
    (r.1, { st with cursor := r.2 })
  | .hexnl =>
    let r := format_print_hexadecimal cfg.colorChars true st.cursor data
    (r.1, { st with cursor := r.2 })
  | .split =>
    let r := format_print_split cfg.colorChars true st.window data
    (r.1, { st with window := r.2 })
  | .splitfull =>
    let r := format_print_split cfg.colorChars false st.window data
    (r.1, { st with window := r.2 })

/-- The serial-to-console half of one iteration (the second `if` of the
loop body), entered with the state and effects accumulated by the
console-to-serial half. -/
def serial_part (cfg : Config) (st : LoopState) (inp : IterInput)
    (eff : IterEffects) : IterResult × IterEffects :=
  if inp.serialReady then
    match inp.serialRead with
    | .error e => (.fatal ("Error reading serial port: " ++ e) st, eff)
    | .ok buff =>
      if buff ≠ [] then
        let r1 := match cfg.rxnlPat with
          | some p => format_rx_nlsub p st.rxnl buff
          | none => (buff, st.rxnl)
        let st1 := { st with rxnl := r1.2 }
        let r2 := format_print cfg st1 r1.1
        (.cont r2.2, { eff with stdoutBytes := eff.stdoutBytes ++ r2.1 })
      else (.cont st, eff)
  else (.cont st, eff)

/-- The transmit-side processing applied to a console-input buffer after
the escape check: the tx newline substitution (when enabled) followed by
the hexadecimal interpretation (when the input mode is `hex`).  Returns
`(processed buffer, new txhex_state)`. -/
def tx_process (cfg : Config) (txhex : Str) (buff : Str) : Str × Str :=
  let b1 := match cfg.txnlSub with
    | some sub => format_tx_nlsub buff sub
    | none => buff
  if cfg.inputModeHex then format_tx_hex txhex b1 else (b1, txhex)

/-- One iteration of the `while True` body of `read_write_loop`: the
console-to-serial half (escape check, tx newline substitution, optional
hex decode, one serial write), then the serial-to-console half. -/
def loop_iteration (cfg : Config) (st : LoopState) (inp : IterInput) :
    IterResult × IterEffects :=
  if inp.stdinReady then
    match inp.stdinRead with
    | .error e => (.fatal ("Error reading stdin: " ++ e) st, noEffects)
    | .ok buff =>
      if buff ≠ [] then
        if Quit_Escape_Character ∈ buff then (.brk st, noEffects)
        else
          let r := tx_process cfg st.txhex buff
          let st1 := { st with txhex := r.2 }
          match inp.serialWriteRes with
          | .error e =>
            (.fatal ("Error writing to serial port: " ++ e) st1,
             { serialWriteCalls := [r.1], serialSent := [], stdoutBytes := [] })
          | .ok n =>
            serial_part cfg st1 inp
              { serialWriteCalls := [r.1], serialSent := r.1.take n, stdoutBytes := [] }
      else serial_part cfg st inp noEffects
  else serial_part cfg st inp noEffects

/-- A configuration with every formatting feature off (all defaults). -/
def rawCfg : Config := ⟨none, false, none, .raw, []⟩

/-- The state at loop entry: all module-level state empty / zero. -/
def initState : LoopState := ⟨[], [], 0, []⟩

/-! ### The `__main__` epilogue around `read_write_loop` -/

/-- The externally visible steps `__main__` performs after
`read_write_loop` returns or raises. -/
inductive MainAction
  | stderrOut (msg : String)
  | exitCode (code : Int)
  | stdoutNewline
  | stdinResetDone
  | serialCloseDone
deriving DecidableEq

/-- Lines 698-718 of `ssterm.py`: the loop call wrapped in
`try/except` (writing the error and exiting -1), then `print ""`,
`stdin_reset()` and `serial_close(serial_fd)`, each with its own
`try/except` that exits -1.  `loopRes` is how `read_write_loop` ended and
`resetRes`/`closeRes` are the outcomes of the two cleanup calls. -/
def main_after_loop (loopRes : Except String Unit)
    (resetRes closeRes : Except String Unit) : List MainAction :=
  match loopRes with
  | .error e => [.stderrOut (e ++ "\n"), .exitCode (-1)]
  | .ok _ =>
    .stdoutNewline ::
    (match resetRes with
     | .error e =>
       [.stderrOut ("Error resetting stdin to buffered mode: " ++ e ++ "\n"), .exitCode (-1)]
     | .ok _ =>
       .stdinResetDone ::
       (match closeRes with
        | .error e => [.stderrOut ("Error closing serial port: " ++ e ++ "\n"), .exitCode (-1)]
        | .ok _ => [.serialCloseDone]))

/-! ### Color option parsing (`-c` handling in `__main__`) -/

/-- `Color_Chars[k] = v` on a Python dict: overwrite in place if the key
exists (size unchanged), else append. -/
def dictInsert (m : List (Nat × Nat)) (k v : Nat) : List (Nat × Nat) :=
  if m.any (fun p => p.1 = k) then m.map (fun p => if p.1 = k then (k, v) else p)
  else m ++ [(k, v)]

/-- One hex digit of `int(·, 16)` on command-line characters. -/
def hexCharVal (c : Char) : Option Nat :=
  if 48 ≤ c.toNat ∧ c.toNat ≤ 57 then some (c.toNat - 48)
  else if 97 ≤ c.toNat ∧ c.toNat ≤ 102 then some (c.toNat - 87)
  else if 65 ≤ c.toNat ∧ c.toNat ≤ 70 then some (c.toNat - 55)
  else none

/-- `int(s, 16)` on the digits after a `"0x"` prefix (none on any
non-hex-digit, matching the ValueError branch). -/
def parseHexNat (l : List Char) : Option Nat :=
  if l = [] then none
  else l.foldlM (fun acc c => (hexCharVal c).map (fun v => 16 * acc + v)) 0

/-- Parsing of one comma-separated `-c` entry: a single ASCII character
gives `ord(c)`, a `"0x"`-prefixed hex literal (length > 2) gives its
value, anything else is the "Unknown color code character" error. -/
def parse_color_entry (c : List Char) : Option Nat :=
  if c.length = 1 then some (c.headD ' ').toNat
  else if c.length > 2 ∧ c.take 2 = ['0', 'x'] then parseHexNat (c.drop 2)
  else none

/-- Handling of one `-c, --color` occurrence: drop empty entries, reject
the option if it alone has more entries than `len(Color_Codes)`, then
assign each entry the slot `len(Color_Chars)` at the time of insertion.
`none` models `sys.exit(-1)` on either error. -/
def process_color_option (arg : List (List Char)) (colorChars : List (Nat × Nat)) :
    Option (List (Nat × Nat)) :=
  let entries := arg.filter (fun x => 1 ≤ x.length)
  if entries.length > Color_Codes.length then none
  else entries.foldlM (fun m c => (parse_color_entry c).map (fun k => dictInsert m k m.length))
    colorChars

/-- The whole command line's `-c` occurrences, processed in order against
the single module-level `Color_Chars` dictionary (initially empty). -/
def process_color_options (args : List (List (List Char))) : Option (List (Nat × Nat)) :=
  args.foldlM (fun m arg => process_color_option arg m) []

/-! ## Verification

Helper lemmas first, then one theorem per checked property. -/

/-! ### The hex-dump formatter on bytes 0x00..0x0F -/

/-- Claim C9: with output mode `hex`, an empty color mapping and the
column cursor at 0, feeding the bytes 0x00..0x0F writes exactly sixteen
two-digit lowercase hex tokens separated by single spaces, except for a
double space after the eighth token, followed by one newline, and leaves
the cursor at 0. -/
theorem hex_formatter_scenario :
    format_print { rawCfg with outputMode := .hex } initState (List.range 16) =
      (strBytes "00 01 02 03 04 05 06 07  08 09 0a 0b 0c 0d 0e 0f\n", initState) := by
  decide

/-! ### The `__main__` epilogue: cleanup is skipped on the error path -/

/-- Claim C2 counterexample: when `read_write_loop` raises, `__main__`
writes the message and exits -1; the console mode is not restored and the
serial descriptor is not closed on that path. -/
theorem main_error_path_skips_cleanup :
    MainAction.stdinResetDone ∉ main_after_loop (.error "E") (.ok ()) (.ok ()) ∧
    MainAction.serialCloseDone ∉ main_after_loop (.error "E") (.ok ()) (.ok ()) := by
  decide

/-- Claim C2 amended: the cleanup is conditional on how the loop ended —
after a normal escape-triggered return, `__main__` prints a newline,
restores the console mode and closes the serial descriptor, but when the
loop raises a fatal error it writes the message and exits -1 performing
neither cleanup step. -/
theorem main_cleanup_paths (e : String) (r c : Except String Unit) :
    main_after_loop (.error e) r c =
      [.stderrOut (e ++ "\n"), .exitCode (-1)] ∧
    main_after_loop (.ok ()) (.ok ()) (.ok ()) =
      [.stdoutNewline, .stdinResetDone, .serialCloseDone] :=
  ⟨rfl, rfl⟩

/-! ### Zero-length reads are skipped, not fatal -/

/-- Claim C3 counterexample: a zero-length read on stdin (first conjunct)
or on the serial descriptor (second conjunct) leaves the iteration to
fall through with nothing done — the loop continues; it does not
terminate with an error. -/
theorem zero_length_read_continues :
    loop_iteration rawCfg initState ⟨true, false, .ok [], .ok [], .ok 0⟩ =
      (.cont initState, noEffects) ∧
    loop_iteration rawCfg initState ⟨false, true, .ok [], .ok [], .ok 0⟩ =
      (.cont initState, noEffects) :=
  ⟨rfl, rfl⟩

/-- Claim C3 amended: a zero-length read result on either descriptor is
silently skipped (that direction's processing is bypassed and the loop
falls through to the next iteration, with no state change and no I/O);
only a raised read exception is fatal, terminating the loop with the
corresponding error. -/
theorem read_result_handling (cfg : Config) (st : LoopState) (b : Bool)
    (srd : Except String Str) (wr : Except String Nat) (e : String) :
    loop_iteration cfg st ⟨true, false, .ok [], srd, wr⟩ = (.cont st, noEffects) ∧
    loop_iteration cfg st ⟨false, true, srd, .ok [], wr⟩ = (.cont st, noEffects) ∧
    (loop_iteration cfg st ⟨true, b, .error e, srd, wr⟩).1 =
      .fatal ("Error reading stdin: " ++ e) st ∧
    (loop_iteration cfg st ⟨false, true, srd, .error e, wr⟩).1 =
      .fatal ("Error reading serial port: " ++ e) st := by
  refine ⟨rfl, ?_, rfl, ?_⟩ <;>
    cases srd <;> rfl

/-! ### Serial writes are issued once, short writes are not retried -/

/-- Claim C4 counterexample: with a two-byte buffer of which the OS
accepts only one byte, the iteration issues a single write call, only the
first byte is sent, and the loop simply continues — the unsent suffix is
silently dropped, not retried. -/
theorem short_write_dropped :
    loop_iteration rawCfg initState ⟨true, false, .ok [65, 66], .ok [], .ok 1⟩ =
      (.cont initState, ⟨[[65, 66]], [65], []⟩) ∧ ([65] : Str) ≠ [65, 66] := by
  exact ⟨rfl, by decide⟩

/-- Claim C4 amended: for each console-input buffer the loop issues
exactly one serial write call, whose payload is the fully processed
buffer; the bytes actually delivered are the prefix the OS accepts, and
the iteration continues regardless — there is no retry loop for short
writes (only a raised write error is handled, fatally). -/
theorem serial_write_single_call (cfg : Config) (st : LoopState) (buff : Str) (n : Nat)
    (h1 : buff ≠ []) (h2 : Quit_Escape_Character ∉ buff) :
    loop_iteration cfg st ⟨true, false, .ok buff, .ok [], .ok n⟩ =
      (.cont { st with txhex := (tx_process cfg st.txhex buff).2 },
       ⟨[(tx_process cfg st.txhex buff).1],
        (tx_process cfg st.txhex buff).1.take n, []⟩) := by
  simp only [loop_iteration, serial_part]
  rw [if_pos h1, if_neg h2]
  simp

/-- Witness for `serial_write_single_call` at a concrete input. -/
theorem serial_write_single_call_witness :
    loop_iteration rawCfg initState ⟨true, false, .ok [65, 66], .ok [], .ok 1⟩ =
      (.cont { initState with txhex := (tx_process rawCfg initState.txhex [65, 66]).2 },
       ⟨[(tx_process rawCfg initState.txhex [65, 66]).1],
        (tx_process rawCfg initState.txhex [65, 66]).1.take 1, []⟩) :=
  serial_write_single_call rawCfg initState [65, 66] 1 (by decide) (by decide)

/-! ### The escape character stops the loop before anything is written -/

/-- Claim C5: when a console-input chunk contains the quit escape byte
0x1D anywhere, the iteration breaks out of the loop and makes no serial
write call at all — in particular no byte positioned after the sentinel
in that chunk is ever written to the serial channel. -/
theorem escape_stops_loop (cfg : Config) (st : LoopState) (inp : IterInput) (buff : Str)
    (h1 : inp.stdinReady = true) (h2 : inp.stdinRead = .ok buff)
    (h3 : Quit_Escape_Character ∈ buff) :
    (loop_iteration cfg st inp).1 = .brk st ∧
    (loop_iteration cfg st inp).2.serialWriteCalls = [] := by
  have hne : buff ≠ [] := List.ne_nil_of_mem h3
  simp [loop_iteration, h1, h2, h3, hne, noEffects]

/-- Witness for `escape_stops_loop` at a concrete input. -/
theorem escape_stops_loop_witness :
    (loop_iteration rawCfg initState ⟨true, false, .ok [65, 29, 66], .ok [], .ok 9⟩).1 =
      .brk initState ∧
    (loop_iteration rawCfg initState
        ⟨true, false, .ok [65, 29, 66], .ok [], .ok 9⟩).2.serialWriteCalls = [] :=
  escape_stops_loop rawCfg initState ⟨true, false, .ok [65, 29, 66], .ok [], .ok 9⟩
    [65, 29, 66] rfl rfl (by decide)

/-- Claim C10: when a console-input chunk contains the quit escape byte,
no byte of that chunk reaches the serial channel at all — the bytes
preceding the sentinel are discarded too, not only those after it. -/
theorem escape_discards_whole_chunk (cfg : Config) (st : LoopState) (inp : IterInput)
    (buff : Str) (h1 : inp.stdinReady = true) (h2 : inp.stdinRead = .ok buff)
    (h3 : Quit_Escape_Character ∈ buff) :
    (loop_iteration cfg st inp).2.serialSent = [] := by
  have hne : buff ≠ [] := List.ne_nil_of_mem h3
  simp [loop_iteration, h1, h2, h3, hne, noEffects]

/-- Witness for `escape_discards_whole_chunk` at a concrete input. -/
theorem escape_discards_whole_chunk_witness :
    (loop_iteration rawCfg initState ⟨true, false, .ok [67, 29], .ok [], .ok 9⟩).2.serialSent
      = [] :=
  escape_discards_whole_chunk rawCfg initState ⟨true, false, .ok [67, 29], .ok [], .ok 9⟩
    [67, 29] rfl rfl (by decide)

/-! ### The color palette bound is enforced per option, not globally -/

/-- Claim C6: the command line `-c A,B,C,D -c E,F,G,H` passes the
per-option length check (each list has 4 entries), yet the accumulated
dictionary assigns `H` the color-slot index 7, which is out of bounds for
the 7-entry `Color_Codes` palette: the configuration-time bound is not
enforced across the whole command line, and the out-of-range slot later
faults when rendering. -/
theorem color_bound_bypassed_across_options :
    process_color_options
        [[['A'], ['B'], ['C'], ['D']], [['E'], ['F'], ['G'], ['H']]] =
      some [(65, 0), (66, 1), (67, 2), (68, 3), (69, 4), (70, 5), (71, 6), (72, 7)] ∧
    ¬ (7 < Color_Codes.length) := by
  exact ⟨by decide, by decide⟩

/-! ### Hex decoding: round trip and boundary invariance -/

/-- A lowercase hex digit character is in `string.hexdigits`. -/
lemma isHexDigitByte_lowerDigit (n : Nat) (h : n < 16) :
    isHexDigitByte (if n < 10 then 48 + n else 87 + n) = true := by
  unfold isHexDigitByte
  split <;> simp only [Bool.or_eq_true, Bool.and_eq_true, decide_eq_true_eq] <;> omega

/-- `hexDigitVal` inverts the lowercase hex digit encoding. -/
lemma hexDigitVal_lowerDigit (n : Nat) (h : n < 16) :
    hexDigitVal (if n < 10 then 48 + n else 87 + n) = n := by
  by_cases hn : n < 10
  · rw [if_pos hn]; unfold hexDigitVal; rw [if_pos (by omega)]; omega
  · rw [if_neg hn]; unfold hexDigitVal; rw [if_neg (by omega), if_pos (by omega)]; omega

/-- Claim C7: hex-decoding (from the empty accumulator) the two-lowercase-
digit hex encoding of any byte sequence returns exactly that sequence,
with an empty accumulator left over. -/
theorem tx_hex_roundtrip (B : Str) (h : ∀ b ∈ B, b < 256) :
    format_tx_hex [] (hexEncode B) = (B, []) := by
  induction B with
  | nil => rfl
  | cons b B ih =>
    have hb : b < 256 := h b (List.mem_cons_self b B)
    have hrest : ∀ x ∈ B, x < 256 := fun x hx => h x (List.mem_cons_of_mem _ hx)
    have h16a : b / 16 < 16 := by omega
    have h16b : b % 16 < 16 := by omega
    have hda := isHexDigitByte_lowerDigit (b / 16) h16a
    have hdb := isHexDigitByte_lowerDigit (b % 16) h16b
    have hexp : hexEncode (b :: B) =
        (if b / 16 < 10 then 48 + b / 16 else 87 + b / 16) ::
          (if b % 16 < 10 then 48 + b % 16 else 87 + b % 16) :: hexEncode B := by
      simp [hexEncode]
    rw [hexp]
    simp [format_tx_hex, hda, hdb, parse2hex, hexDigitVal_lowerDigit _ h16a,
      hexDigitVal_lowerDigit _ h16b, ih hrest]
    omega

/-- Witness for `tx_hex_roundtrip` at a concrete byte sequence. -/
theorem tx_hex_roundtrip_witness :
    format_tx_hex [] (hexEncode [0, 171, 255]) = ([0, 171, 255], []) :=
  tx_hex_roundtrip [0, 171, 255] (by decide)

/-- Processing a concatenation with `format_tx_hex` equals processing the
two halves in sequence, threading the accumulator. -/
lemma format_tx_hex_append (st c1 c2 : Str) :
    format_tx_hex st (c1 ++ c2) =
      ((format_tx_hex st c1).1 ++ (format_tx_hex (format_tx_hex st c1).2 c2).1,
       (format_tx_hex (format_tx_hex st c1).2 c2).2) := by
  induction c1 generalizing st with
  | nil => simp [format_tx_hex]
  | cons x rest ih =>
    simp only [List.cons_append, format_tx_hex]
    by_cases h2 : (if isHexDigitByte x then st ++ [x] else []).length = 2
    · simp only [if_pos h2, List.append_eq, List.cons_append]
      rw [ih]
    · simp only [if_neg h2, List.append_eq]
      rw [ih]

/-- Chunked processing with `format_tx_hex` equals one-shot processing of
the concatenation, from any starting accumulator. -/
lemma runTxHexChunks_eq (chunks : List Str) (st : Str) :
    runTxHexChunks st chunks = format_tx_hex st chunks.flatten := by
  induction chunks generalizing st with
  | nil => simp [runTxHexChunks, format_tx_hex]
  | cons c cs ih => simp [runTxHexChunks, List.flatten_cons, format_tx_hex_append, ih]

/-- Claim C8: feeding any sequence of chunks through `format_tx_hex` from
the empty accumulator produces exactly the output (and final accumulator)
of feeding their concatenation as one buffer — in particular an odd hex
digit trailing at a chunk boundary combines with the next chunk's first
digit; and any non-hex-digit byte resets the accumulator to empty. -/
theorem tx_hex_boundary_invariance :
    (∀ chunks : List Str, runTxHexChunks [] chunks = format_tx_hex [] chunks.flatten) ∧
    (∀ (st : Str) (x : Nat), isHexDigitByte x = false → (format_tx_hex st [x]).2 = []) := by
  constructor
  · exact fun chunks => runTxHexChunks_eq chunks []
  · intro st x hx
    simp [format_tx_hex, hx]

/-- Witness for `tx_hex_boundary_invariance`: the digits of 0x41 split
across two chunks, and a non-hex byte (space) resetting a pending digit. -/
theorem tx_hex_boundary_invariance_witness :
    runTxHexChunks [] [[52], [49]] = format_tx_hex [] (List.flatten [[52], [49]]) ∧
    (format_tx_hex [53] [32]).2 = [] :=
  ⟨tx_hex_boundary_invariance.1 [[52], [49]],
   tx_hex_boundary_invariance.2 [53] 32 (by decide)⟩

/-! ### Receive newline substitution: boundary invariance -/

/-- `getLast?` skips a head element when the tail is non-empty. -/
lemma getLast?_cons_ne_nil {α : Type} (a : α) (l : List α) (h : l ≠ []) :
    (a :: l).getLast? = l.getLast? := by
  cases l with
  | nil => exact absurd rfl h
  | cons b m => exact List.getLast?_cons_cons

/-- `getLast?` of an append with a non-empty right part. -/
lemma getLast?_append_right {α : Type} (l l' : List α) (h : l' ≠ []) :
    (l ++ l').getLast? = l'.getLast? := by
  rw [List.getLast?_append]
  cases hz : l'.getLast? with
  | none => exact absurd (List.getLast?_eq_none_iff.mp hz) h
  | some z => rfl

/-- The two-deep case equation of `subCRLF`. -/
lemma subCRLF_cons_cons (c d : Nat) (l : Str) :
    subCRLF (c :: d :: l) =
      if c = 13 ∧ d = 10 then 10 :: subCRLF l else c :: subCRLF (d :: l) := rfl

/-- `subCRLF` on a cons whose head is not CR. -/
lemma subCRLF_cons_ne13 (c : Nat) (l : Str) (hc : c ≠ 13) :
    subCRLF (c :: l) = c :: subCRLF l := by
  cases l with
  | nil => rfl
  | cons d rest => rw [subCRLF_cons_cons, if_neg (fun hcd => hc hcd.1)]

/-- `subCRLF` maps non-empty lists to non-empty lists. -/
lemma subCRLF_ne_nil (l : Str) (h : l ≠ []) : subCRLF l ≠ [] := by
  cases l with
  | nil => exact absurd rfl h
  | cons c rest =>
    cases rest with
    | nil => simp [subCRLF]
    | cons d rest2 =>
      rw [subCRLF_cons_cons]
      split <;> simp

/-- The substituted buffer ends in CR exactly when the input does (an
unmatched trailing CR survives the substitution, and no substitution
introduces a trailing CR). -/
lemma subCRLF_getLast13 : ∀ l : Str, l ≠ [] →
    ((subCRLF l).getLast? = some 13 ↔ l.getLast? = some 13)
  | [], h => absurd rfl h
  | [c], _ => by simp [subCRLF]
  | c :: d :: rest, _ => by
    rw [subCRLF_cons_cons]
    by_cases hcd : c = 13 ∧ d = 10
    · obtain ⟨rfl, rfl⟩ := hcd
      rw [if_pos ⟨rfl, rfl⟩]
      cases rest with
      | nil => simp [subCRLF]
      | cons e rest2 =>
        have ih := subCRLF_getLast13 (e :: rest2) (by simp)
        have hne := subCRLF_ne_nil (e :: rest2) (by simp)
        rw [getLast?_cons_ne_nil 10 _ hne, List.getLast?_cons_cons,
          List.getLast?_cons_cons]
        exact ih
    · rw [if_neg hcd]
      have ih := subCRLF_getLast13 (d :: rest) (by simp)
      have hne := subCRLF_ne_nil (d :: rest) (by simp)
      rw [getLast?_cons_ne_nil c _ hne, List.getLast?_cons_cons]
      exact ih

/-- `subCRLF` consumes a leading CRLF pair. -/
lemma subCRLF_crlf_cons (l : Str) : subCRLF (13 :: 10 :: l) = 10 :: subCRLF l := by
  rw [subCRLF_cons_cons, if_pos ⟨rfl, rfl⟩]

/-- `subCRLF` passes a head byte through when the first two bytes are not
CRLF. -/
lemma subCRLF_cons_cons_neg (c d : Nat) (l : Str) (h : ¬(c = 13 ∧ d = 10)) :
    subCRLF (c :: d :: l) = c :: subCRLF (d :: l) := by
  rw [subCRLF_cons_cons, if_neg h]

/-- Splitting `subCRLF` at an append boundary: when the left part ends in
an unconsumed CR, that CR recombines with the right part; otherwise the
two parts substitute independently. -/
lemma subCRLF_append : ∀ (a : Str), a ≠ [] → ∀ b : Str,
    subCRLF (a ++ b) =
      if a.getLast? = some 13 then (subCRLF a).dropLast ++ subCRLF (13 :: b)
      else subCRLF a ++ subCRLF b
  | [], h => absurd rfl h
  | [c], _ => by
    intro b
    by_cases hc : c = 13
    · subst hc
      rw [if_pos (by simp)]
      simp [subCRLF]
    · rw [if_neg (by simp [hc])]
      rw [List.singleton_append, subCRLF_cons_ne13 c b hc]
      simp [subCRLF]
  | c :: d :: rest, _ => by
    intro b
    by_cases hcd : c = 13 ∧ d = 10
    · obtain ⟨rfl, rfl⟩ := hcd
      cases rest with
      | nil =>
        rw [if_neg (by simp)]
        rw [List.cons_append, List.cons_append, List.nil_append, subCRLF_crlf_cons]
        simp [subCRLF_crlf_cons, subCRLF]
      | cons e rest2 =>
        have hrne : (e :: rest2 : Str) ≠ [] := by simp
        have ih := subCRLF_append (e :: rest2) hrne b
        have hglA : (13 :: 10 :: e :: rest2 : Str).getLast? = (e :: rest2 : Str).getLast? := by
          rw [List.getLast?_cons_cons, List.getLast?_cons_cons]
        rw [List.cons_append, List.cons_append]
        simp only [subCRLF_crlf_cons]
        rw [hglA, List.cons_append] at *
        rw [ih]
        have hsne := subCRLF_ne_nil (e :: rest2) hrne
        by_cases hlast : (e :: rest2 : Str).getLast? = some 13
        · rw [if_pos hlast, if_pos hlast,
            List.dropLast_cons_of_ne_nil hsne, List.cons_append]
        · rw [if_neg hlast, if_neg hlast, List.cons_append]
    · cases rest with
      | nil =>
        have ih := subCRLF_append [d] (by simp) b
        rw [List.cons_append, List.cons_append, List.nil_append,
          subCRLF_cons_cons_neg c d b hcd, subCRLF_cons_cons_neg c d [] hcd]
        rw [List.singleton_append] at ih
        rw [ih]
        rw [List.getLast?_cons_cons]
        have hsne := subCRLF_ne_nil [d] (by simp)
        by_cases hlast : ([d] : Str).getLast? = some 13
        · rw [if_pos hlast, if_pos hlast,
            List.dropLast_cons_of_ne_nil hsne, List.cons_append]
        · rw [if_neg hlast, if_neg hlast, List.cons_append]
      | cons e rest2 =>
        have hdne : (d :: e :: rest2 : Str) ≠ [] := by simp
        have ih := subCRLF_append (d :: e :: rest2) hdne b
        rw [List.cons_append, List.cons_append,
          subCRLF_cons_cons_neg c d ((e :: rest2) ++ b) hcd,
          subCRLF_cons_cons_neg c d (e :: rest2) hcd]
        rw [List.cons_append] at ih
        rw [ih]
        have hgl : (c :: d :: e :: rest2 : Str).getLast? = (d :: e :: rest2 : Str).getLast? :=
          List.getLast?_cons_cons
        rw [hgl]
        have hsne := subCRLF_ne_nil (d :: e :: rest2) hdne
        by_cases hlast : (d :: e :: rest2 : Str).getLast? = some 13
        · rw [if_pos hlast, if_pos hlast,
            List.dropLast_cons_of_ne_nil hsne, List.cons_append]
        · rw [if_neg hlast, if_neg hlast, List.cons_append]

/-- The `"\r"` pattern substitutes by a per-byte map whose output never
contains CR, so nothing is ever carried. -/
lemma rx_step_cr (st data : Str) :
    format_rx_nlsub .cr st data =
      ((st ++ data).map (fun x => if x = 13 then 10 else x), []) := by
  simp only [format_rx_nlsub, RxPattern.reSub, RxPattern.matchFirst, Console_Newline]
  rw [if_neg]
  intro hc
  obtain ⟨ys, hys⟩ := List.getLast?_eq_some_iff.mp hc
  have hmem : (13 : Nat) ∈ (st ++ data).map (fun x => if x = 13 then 10 else x) := by
    rw [hys]; simp
  obtain ⟨x, _, hx⟩ := List.mem_map.mp hmem
  by_cases h13 : x = 13 <;> simp [h13] at hx

/-- The `"\r|\n"` pattern likewise maps per byte, never outputs CR, and
carries nothing (its `match[0][0]` is CR). -/
lemma rx_step_crorlf (st data : Str) :
    format_rx_nlsub .crorlf st data =
      ((st ++ data).map (fun x => if x = 13 ∨ x = 10 then 10 else x), []) := by
  simp only [format_rx_nlsub, RxPattern.reSub, RxPattern.matchFirst, Console_Newline]
  rw [if_neg]
  intro hc
  obtain ⟨ys, hys⟩ := List.getLast?_eq_some_iff.mp hc
  have hmem : (13 : Nat) ∈ (st ++ data).map (fun x => if x = 13 ∨ x = 10 then 10 else x) := by
    rw [hys]; simp
  obtain ⟨x, _, hx⟩ := List.mem_map.mp hmem
  by_cases h13 : x = 13 ∨ x = 10 <;> simp [h13] at hx
  exact h13 (Or.inl hx)

/-- The `"\n"` substitution is the identity map. -/
lemma map_lf_id (l : Str) :
    l.map (fun x => if x = 10 then Console_Newline else x) = l := by
  have hf : (fun x : Nat => if x = 10 then Console_Newline else x) = id := by
    funext x
    by_cases hx : x = 10 <;> simp [hx, Console_Newline]
  rw [hf, List.map_id]

/-- The `"\n"` pattern substitutes nothing and holds back a trailing LF. -/
lemma rx_step_lf (st data : Str) :
    format_rx_nlsub .lf st data =
      (if (st ++ data).getLast? = some 10 then ((st ++ data).dropLast, [10])
       else (st ++ data, [])) := by
  simp only [format_rx_nlsub, RxPattern.reSub, RxPattern.matchFirst, map_lf_id]

/-- Processing a concatenation of two non-empty buffers with
`format_rx_nlsub` equals processing them in sequence, threading the
carry state. -/
lemma rx_step_append (p : RxPattern) (st c1 c2 : Str) (h1 : c1 ≠ []) (h2 : c2 ≠ []) :
    format_rx_nlsub p st (c1 ++ c2) =
      ((format_rx_nlsub p st c1).1 ++
         (format_rx_nlsub p (format_rx_nlsub p st c1).2 c2).1,
       (format_rx_nlsub p (format_rx_nlsub p st c1).2 c2).2) := by
  cases p with
  | cr =>
    simp only [rx_step_cr]
    simp [List.map_append, List.append_assoc]
  | crorlf =>
    simp only [rx_step_crorlf]
    simp [List.map_append, List.append_assoc]
  | lf =>
    cases hc1 : c1.getLast? with
    | none => exact absurd (List.getLast?_eq_none_iff.mp hc1) h1
    | some x =>
    cases hc2 : c2.getLast? with
    | none => exact absurd (List.getLast?_eq_none_iff.mp hc2) h2
    | some y =>
    obtain ⟨xs, rfl⟩ := List.getLast?_eq_some_iff.mp hc1
    obtain ⟨ys, rfl⟩ := List.getLast?_eq_some_iff.mp hc2
    have g1 : (st ++ ((xs ++ [x]) ++ (ys ++ [y]))).getLast? = some y := by
      rw [getLast?_append_right _ _ (by simp), getLast?_append_right _ _ (by simp),
        List.getLast?_concat]
    have g2 : (st ++ (xs ++ [x])).getLast? = some x := by
      rw [getLast?_append_right _ _ (by simp), List.getLast?_concat]
    have g3 : ∀ z : Str, (z ++ (ys ++ [y])).getLast? = some y := fun z => by
      rw [getLast?_append_right _ _ (by simp), List.getLast?_concat]
    have hdl : ∀ a z : Nat, (a :: (ys ++ [z]) : Str).dropLast = a :: ys := fun a z => by
      rw [List.dropLast_cons_of_ne_nil (by simp), List.dropLast_concat]
    simp only [rx_step_lf, g1, g2, g3]
    by_cases hx : x = 10 <;> by_cases hy : y = 10 <;>
      simp [hx, hy, hdl, List.dropLast_append_of_ne_nil, List.dropLast_concat,
        List.append_assoc]
  | crlf =>
    have hd1 : st ++ c1 ≠ [] := by simp [h1]
    simp only [format_rx_nlsub, RxPattern.reSub, RxPattern.matchFirst]
    rw [← List.append_assoc, subCRLF_append (st ++ c1) hd1 c2]
    by_cases hlast : (st ++ c1).getLast? = some 13
    · have hsl : (subCRLF (st ++ c1)).getLast? = some 13 :=
        (subCRLF_getLast13 _ hd1).mpr hlast
      rw [if_pos hlast, if_pos hsl]
      have hbne : subCRLF (13 :: c2) ≠ [] := subCRLF_ne_nil _ (by simp)
      rw [List.singleton_append]
      rw [getLast?_append_right _ _ hbne]
      by_cases hl2 : (subCRLF (13 :: c2)).getLast? = some 13
      · rw [if_pos hl2, if_pos hl2, List.dropLast_append_of_ne_nil _ hbne]
      · rw [if_neg hl2, if_neg hl2]
    · have hsl : ¬(subCRLF (st ++ c1)).getLast? = some 13 :=
        fun hs => hlast ((subCRLF_getLast13 _ hd1).mp hs)
      rw [if_neg hlast, if_neg hsl]
      have hbne : subCRLF c2 ≠ [] := subCRLF_ne_nil _ h2
      rw [List.nil_append]
      rw [getLast?_append_right _ _ hbne]
      by_cases hl2 : (subCRLF c2).getLast? = some 13
      · rw [if_pos hl2, if_pos hl2, List.dropLast_append_of_ne_nil _ hbne]
      · rw [if_neg hl2, if_neg hl2]

/-- Chunked processing with `format_rx_nlsub` equals one-shot processing
of the concatenation, for a non-empty list of non-empty chunks and any
starting carry. -/
lemma runRxChunks_eq (p : RxPattern) : ∀ (chunks : List Str) (st : Str), chunks ≠ [] →
    (∀ c ∈ chunks, c ≠ []) →
    runRxChunks p st chunks = format_rx_nlsub p st chunks.flatten
  | [], _, h, _ => absurd rfl h
  | [c], st, _, _ => by
    simp [runRxChunks]
  | c :: c' :: cs, st, _, hc => by
    have h1 : c ≠ [] := hc c (by simp)
    have hc' : c' ≠ [] := hc c' (by simp)
    have hflat : (c' :: cs : List Str).flatten ≠ [] := by
      rw [List.flatten_cons]
      intro hemp
      exact hc' (List.append_eq_nil.mp hemp).1
    have ih := runRxChunks_eq p (c' :: cs) ((format_rx_nlsub p st c).2) (by simp)
      (fun x hx => hc x (List.mem_cons_of_mem _ hx))
    rw [List.flatten_cons, rx_step_append p st c (c' :: cs).flatten h1 hflat]
    show ((format_rx_nlsub p st c).1 ++ (runRxChunks p (format_rx_nlsub p st c).2 (c' :: cs)).1,
        (runRxChunks p (format_rx_nlsub p st c).2 (c' :: cs)).2) = _
    rw [ih]

/-- Claim C1: for every byte string and every partition of it into
non-empty chunks, feeding the chunks sequentially through the
receive-newline transformer — with any of the four match patterns
`"\r"`, `"\n"`, `"\r\n"`, `"\r|\n"`, starting from the empty carry
state — produces output byte-identical to feeding the whole string as
one chunk. -/
theorem rx_nlsub_boundary_invariance (p : RxPattern) (chunks : List Str)
    (h : ∀ c ∈ chunks, c ≠ []) :
    (runRxChunks p [] chunks).1 = (format_rx_nlsub p [] chunks.flatten).1 := by
  cases chunks with
  | nil => cases p <;> rfl
  | cons c cs => rw [runRxChunks_eq p (c :: cs) [] (by simp) h]

/-- Witness for `rx_nlsub_boundary_invariance`: a CRLF pair split across
the boundary of two chunks under the `"\r\n"` pattern. -/
theorem rx_nlsub_boundary_invariance_witness :
    (runRxChunks .crlf [] [[97, 13], [10, 98]]).1 =
      (format_rx_nlsub .crlf [] (List.flatten [[97, 13], [10, 98]])).1 :=
  rx_nlsub_boundary_invariance .crlf [[97, 13], [10, 98]] (by decide)
